import Mathlib

/-!
Shallow embedding of `random_voronoi` from `src/main.py`.

The program labels every cell of an `S × S` grid with (a rescaling of) the
index of the nearest seed point under the L1 (cityblock) metric, either by a
brute-force scan over all seeds or through a KD-tree spatial index.

Coordinates are integer pairs `(row, col)`.  The two numpy images `im`
(seed markers) and `im2` (region labels) are modelled as functions
`Point → ℚ`.  The scipy `KDTree` is not part of the repository's sources;
it is modelled from the specification's description of the spatial index
(balanced median split on alternating axes, single-nearest-neighbour query
with perpendicular-distance pruning, lowest index on exact distance ties).
-/

open List

/-- A grid point `(row, col)` with integer coordinates. -/
abbrev Point : Type := ℤ × ℤ

/-- `scipy.spatial.distance.cityblock` on 2-D integer points:
the L1 / Manhattan distance `|dr| + |dc|`. -/
def cityblock (a b : Point) : ℕ :=
  (a.1 - b.1).natAbs + (a.2 - b.2).natAbs

/-- Distance from `loc` to the `j`-th seed of `l` (out-of-range reads a dummy;
it is only used at indices `j < l.length`). -/
def distAt (loc : Point) (l : List Point) (j : ℕ) : ℕ :=
  cityblock loc (l.getD j ((0 : ℤ), (0 : ℤ)))

/-- The minimum of the distances from `loc` to the points of a list,
`⊤` for the empty list (the `float('inf')` the loop starts from). -/
def distMin (loc : Point) : List Point → WithTop ℕ
  | [] => ⊤
  | p :: rest => min ((cityblock loc p : ℕ) : WithTop ℕ) (distMin loc rest)

/-- The inner brute-force loop of `random_voronoi` (src/main.py lines 67–71):

    min_dist = float('inf')
    for i in range(len(sources)):
        if cityblock(loc, sources[i]) < min_dist:
            im2[loc] = (255 / len(sources)) * i
            min_dist = cityblock(loc, sources[i])

The state is `(retained write, min_dist)`: the first component records the
index `i` of the last executed write to `im2[loc]` (`none` when the loop has
not written yet), the second is `min_dist` (`⊤` = `inf`).  `i` is the loop
counter. -/
def bruteLoop (loc : Point) :
    List Point → ℕ → Option ℕ × WithTop ℕ → Option ℕ × WithTop ℕ
  | [], _, st => st
  | p :: rest, i, st =>
      bruteLoop loc rest (i + 1)
        (if ((cityblock loc p : ℕ) : WithTop ℕ) < st.2
         then (some i, ((cityblock loc p : ℕ) : WithTop ℕ))
         else st)

/-- Run the brute-force scan over the whole seed list, starting from
`min_dist = inf` and no write performed. -/
def bruteScan (loc : Point) (sources : List Point) : Option ℕ × WithTop ℕ :=
  bruteLoop loc sources 0 (none, ⊤)

/- ### The spatial index

The scipy `KDTree` used at src/main.py lines 43 and 52 is external library
code; everything below named `kd…` is modelled from the specification's
description of the `SpatialIndex` component (spec §3, §4.3). -/

/-- The coordinate of a point along a splitting axis:
`false` = row (used at even depths), `true` = col. -/
def axisVal (ax : Bool) (p : Point) : ℤ :=
  if ax then p.2 else p.1

/-- Modelled from the spec: a `SpatialIndex` node.  Internal nodes keep the
pivot seed (index and point) and the splitting axis; leaves keep a single
seed; `empty` is a side of a split that received no seeds. -/
inductive KDNode : Type where
  | empty : KDNode
  | leaf : ℕ → Point → KDNode
  | node : Bool → ℕ → Point → KDNode → KDNode → KDNode
deriving Repr, DecidableEq

/-- The seed list paired with its stable indices `i0, i0+1, …`. -/
def idxList : ℕ → List Point → List (ℕ × Point)
  | _, [] => []
  | i, p :: rest => (i, p) :: idxList (i + 1) rest

/-- Sort indexed seeds by their coordinate along the given axis
(used for the balanced median-pivot choice). -/
def sortByAxis (ax : Bool) (l : List (ℕ × Point)) : List (ℕ × Point) :=
  l.mergeSort (fun a b => decide (axisVal ax a.2 ≤ axisVal ax b.2))

/-- Balanced pivot selection: the median of the subset by the current axis,
together with the remaining seeds. -/
def kdPivot (ax : Bool) (l : List (ℕ × Point)) : (ℕ × Point) × List (ℕ × Point) :=
  let s := sortByAxis ax l
  let m := s.length / 2
  (s.getD m (0, ((0 : ℤ), (0 : ℤ))), s.take m ++ s.drop (m + 1))

/-- Modelled from the spec: construction of the `SpatialIndex` (the scipy
`KDTree(sources, 8)` of src/main.py line 43, whose source is not part of this
repository).  Recursively partition the seed subset by alternating axes; at
each step select a balanced pivot (the median by the current axis), place the
remaining seeds with axis-value ≤ the pivot's into the left subtree and the
rest into the right subtree, and recurse until a subset has at most one
seed. -/
def kdBuild (ax : Bool) (l : List (ℕ × Point)) : KDNode :=
  match l with
  | [] => .empty
  | [s] => .leaf s.1 s.2
  | a :: b :: t =>
      let piv := (kdPivot ax (a :: b :: t)).1
      let rest := (kdPivot ax (a :: b :: t)).2
      let lf := rest.filter (fun x => decide (axisVal ax x.2 ≤ axisVal ax piv.2))
      let rt := rest.filter (fun x => ! decide (axisVal ax x.2 ≤ axisVal ax piv.2))
      .node ax piv.1 piv.2 (kdBuild (!ax) lf) (kdBuild (!ax) rt)
termination_by l.length
decreasing_by
all_goals
  refine lt_of_le_of_lt (List.length_filter_le _ _) ?_
  have hs : (sortByAxis ax (a :: b :: t)).length = (a :: b :: t).length := by
    simp [sortByAxis, List.length_mergeSort]
  simp only [kdPivot, List.length_append, List.length_take, List.length_drop, hs,
    List.length_cons]
  omega

/-- All (index, point) pairs stored in a tree. -/
def kdElems : KDNode → List (ℕ × Point)
  | .empty => []
  | .leaf i p => [(i, p)]
  | .node _ i p l r => (i, p) :: (kdElems l ++ kdElems r)

/-- Structural invariant of the spatial index: at every internal node, the
left subtree holds only seeds with axis-value ≤ the pivot's and the right
subtree only seeds with axis-value strictly greater. -/
inductive KDInv : KDNode → Prop where
  | empty : KDInv .empty
  | leaf (i : ℕ) (p : Point) : KDInv (.leaf i p)
  | node (ax : Bool) (i : ℕ) (p : Point) (l r : KDNode)
      (hl : ∀ x ∈ kdElems l, axisVal ax x.2 ≤ axisVal ax p)
      (hr : ∀ x ∈ kdElems r, axisVal ax p < axisVal ax x.2)
      (invl : KDInv l) (invr : KDInv r) : KDInv (.node ax i p l r)

/-- Lexicographic comparison of `(distance, index)` candidates: smaller
distance wins, a tie on distance is broken by the lower index. -/
def pairLe (a b : ℕ × ℕ) : Prop :=
  a.1 < b.1 ∨ (a.1 = b.1 ∧ a.2 ≤ b.2)

instance (a b : ℕ × ℕ) : Decidable (pairLe a b) := by
  unfold pairLe
  infer_instance

/-- The better of two `(distance, index)` candidates. -/
def bmin (a b : ℕ × ℕ) : ℕ × ℕ :=
  if pairLe a b then a else b

/-- Fold one candidate into the best-so-far (`none` = no candidate yet). -/
def updateBest (c : ℕ × ℕ) : Option (ℕ × ℕ) → Option (ℕ × ℕ)
  | none => some c
  | some b => some (bmin c b)

/-- Should the far side of a split still be explored?  `true` unless the
perpendicular-distance bound `axd` along the splitting axis exceeds the best
distance found so far (strict pruning, so distance ties are still visited). -/
def farNeeded (axd : ℕ) : Option (ℕ × ℕ) → Bool
  | none => true
  | some b => decide (axd ≤ b.1)

/-- Modelled from the spec: the `SpatialIndex` single-nearest-neighbour query
under L1 (the scipy `sources_kd.query([loc], p=1)` of src/main.py line 52,
whose source is not part of this repository).  Descend into the side of the
splitting axis containing the query's coordinate, recording the node's seed
as a candidate (lower distance wins, exact distance ties keep the lower
index); then visit the other side unless the perpendicular-distance bound
`|query[axis] - pivot[axis]|` rules it out. -/
def kdQuery (q : Point) : KDNode → Option (ℕ × ℕ) → Option (ℕ × ℕ)
  | .empty, best => best
  | .leaf i p, best => updateBest (cityblock q p, i) best
  | .node ax i p l r, best =>
      let best1 := updateBest (cityblock q p, i) best
      if axisVal ax q ≤ axisVal ax p then
        let best2 := kdQuery q l best1
        if farNeeded (axisVal ax q - axisVal ax p).natAbs best2
        then kdQuery q r best2 else best2
      else
        let best2 := kdQuery q r best1
        if farNeeded (axisVal ax q - axisVal ax p).natAbs best2
        then kdQuery q l best2 else best2

/-- Folding all candidates of a list into the best-so-far; the reference
behaviour a query must agree with. -/
def qfold (q : Point) (l : List (ℕ × Point)) (best : Option (ℕ × ℕ)) :
    Option (ℕ × ℕ) :=
  l.foldr (fun x acc => updateBest (cityblock q x.2, x.1) acc) best

/-- The index returned by the spatial-index query for a query cell:
`sources_kd.query([loc], p=1)[1][0]` of src/main.py line 52, modelled from the
spec (`none` only for an empty seed list, which construction rejects). -/
def kdNearestIdx (sources : List Point) (q : Point) : Option ℕ :=
  (kdQuery q (kdBuild false (idxList 0 sources)) none).map (fun b => b.2)

/- ### The rasterization pass and the surrounding run -/

/-- A raster image, indexed by integer `(row, col)` coordinates; numpy float64
cell contents are modelled as rationals. -/
abbrev Grid : Type := Point → ℚ

/-- Images `im` and `im2` right after initialization (src/main.py lines
29–34): `np.zeros((size, size))` with every seed coordinate then set to
255. -/
def markGrid (sources : List Point) : Grid :=
  fun c => if c ∈ sources then 255 else 0

/-- The row-major sequence of cells walked by
`np.nditer(im, flags=["multi_index"])` (src/main.py lines 44 and 59). -/
def gridCells (S : ℕ) : List Point :=
  (List.range S).flatMap
    (fun r : ℕ => (List.range S).map (fun c : ℕ => ((r : ℤ), (c : ℤ))))

/-- Pointwise image write `g[loc] = v`. -/
def setCell (g : Grid) (loc : Point) (v : ℚ) : Grid :=
  fun c => if c = loc then v else g c

/-- The content of `im2[loc]` once the brute-force inner loop has run at cell
`loc` (src/main.py lines 67–71): every strict improvement at seed `i`
executes `im2[loc] = (255 / len(sources)) * i`, so afterwards the cell holds
that rescaling of the final retained index — or its previous content when the
loop body never fired (empty seed list). -/
def bruteCellValue (sources : List Point) (init : ℚ) (loc : Point) : ℚ :=
  match (bruteScan loc sources).1 with
  | none => init
  | some i => (255 / (sources.length : ℚ)) * (i : ℚ)

/-- The brute-force rasterization pass (src/main.py lines 59–73): visit every
cell in row-major order, rewriting only `im2`; state is `(im, im2)`. -/
def bruteRaster (sources : List Point) (S : ℕ) : Grid × Grid :=
  (gridCells S).foldl
    (fun st loc => (st.1, setCell st.2 loc (bruteCellValue sources (st.2 loc) loc)))
    (markGrid sources, markGrid sources)

/-- The value stored by the KD-tree branch at cell `loc` (src/main.py line 52):
`im2[loc] = (255 / len(sources)) * sources_kd.query([loc], p=1)[1][0]`. -/
def kdCellValue (sources : List Point) (loc : Point) : ℚ :=
  (255 / (sources.length : ℚ)) * (((kdNearestIdx sources loc).getD 0 : ℕ) : ℚ)

/-- The KD-tree rasterization pass (src/main.py lines 43–53): same walk over
the cells, rewriting only `im2`. -/
def kdRaster (sources : List Point) (S : ℕ) : Grid × Grid :=
  (gridCells S).foldl
    (fun st loc => (st.1, setCell st.2 loc (kdCellValue sources loc)))
    (markGrid sources, markGrid sources)

/-- The computation core of `random_voronoi(size, num_points, use_brute)`:
`use_brute` selects the branch (line 39); the KD branch first builds the
spatial index, whose construction fails on an empty seed list — an
InvalidInput condition, modelled from the spec — while the brute-force branch
performs no construction and cannot fail.  Returns the images `(im, im2)`. -/
def runVoronoi (use_brute : Bool) (sources : List Point) (S : ℕ) :
    Except String (Grid × Grid) :=
  if use_brute then
    Except.ok (bruteRaster sources S)
  else if sources.isEmpty then
    Except.error "InvalidInput"
  else
    Except.ok (kdRaster sources S)

theorem distMin_le_distAt (loc : Point) (l : List Point) (j : ℕ) (hj : j < l.length) :
    distMin loc l ≤ ((distAt loc l j : ℕ) : WithTop ℕ) := by
  induction l generalizing j with
  | nil => simp at hj
  | cons p rest ih =>
    cases j with
    | zero =>
      simp [distMin, distAt]
    | succ j =>
      have hj' : j < rest.length := by simpa using hj
      have := ih j hj'
      calc distMin loc (p :: rest) ≤ distMin loc rest := min_le_right _ _
        _ ≤ _ := by simpa [distAt] using this

theorem distMin_lt_top (loc : Point) (p : Point) (rest : List Point) :
    distMin loc (p :: rest) < ⊤ :=
  lt_of_le_of_lt (min_le_left _ _) (WithTop.coe_lt_top _)

theorem bruteLoop_no_improve (loc : Point) (l : List Point) (i0 : ℕ)
    (st : Option ℕ × WithTop ℕ) (h : st.2 ≤ distMin loc l) :
    bruteLoop loc l i0 st = st := by
  induction l generalizing i0 with
  | nil => rfl
  | cons p rest ih =>
    have h1 : st.2 ≤ ((cityblock loc p : ℕ) : WithTop ℕ) :=
      h.trans (min_le_left _ _)
    have h2 : st.2 ≤ distMin loc rest := h.trans (min_le_right _ _)
    simp only [bruteLoop, if_neg (not_lt.mpr h1)]
    exact ih _ h2

theorem bruteLoop_snd (loc : Point) (l : List Point) (i0 : ℕ)
    (st : Option ℕ × WithTop ℕ) :
    (bruteLoop loc l i0 st).2 = min st.2 (distMin loc l) := by
  induction l generalizing i0 st with
  | nil => simp [bruteLoop, distMin]
  | cons p rest ih =>
    by_cases h : ((cityblock loc p : ℕ) : WithTop ℕ) < st.2
    · simp only [bruteLoop, if_pos h, ih]
      rw [distMin, ← min_assoc, min_eq_right h.le]
    · simp only [bruteLoop, if_neg h, ih]
      rw [distMin, ← min_assoc, min_eq_left (not_lt.mp h)]

theorem bruteLoop_fst (loc : Point) (l : List Point) (i0 : ℕ)
    (st : Option ℕ × WithTop ℕ) (h : distMin loc l < st.2) :
    ∃ k, k < l.length ∧ (bruteLoop loc l i0 st).1 = some (i0 + k) ∧
      ((distAt loc l k : ℕ) : WithTop ℕ) = distMin loc l ∧
      ∀ j, j < k → distMin loc l < ((distAt loc l j : ℕ) : WithTop ℕ) := by
  induction l generalizing i0 st with
  | nil => simp [distMin] at h
  | cons p rest ih =>
    by_cases hd : ((cityblock loc p : ℕ) : WithTop ℕ) < st.2
    · by_cases hr : distMin loc rest < ((cityblock loc p : ℕ) : WithTop ℕ)
      · -- the minimum lies strictly inside `rest`
        have hmin : distMin loc (p :: rest) = distMin loc rest := by
          rw [distMin, min_eq_right hr.le]
        obtain ⟨k, hk, hres, hdk, hfirst⟩ :=
          ih (i0 + 1) (some i0, ((cityblock loc p : ℕ) : WithTop ℕ)) (by simpa [hmin] using hr)
        refine ⟨k + 1, by simpa using hk, ?_, ?_, ?_⟩
        · simpa [bruteLoop, if_pos hd, Nat.add_assoc, Nat.add_comm 1 k] using hres
        · simpa [hmin, distAt] using hdk
        · intro j hj
          cases j with
          | zero => simpa [hmin, distAt] using hr
          | succ j => simpa [hmin, distAt] using hfirst j (by omega)
      · -- the head already realizes the minimum
        have hple : ((cityblock loc p : ℕ) : WithTop ℕ) ≤ distMin loc rest := not_lt.mp hr
        have hmin : distMin loc (p :: rest) = ((cityblock loc p : ℕ) : WithTop ℕ) := by
          rw [distMin, min_eq_left hple]
        refine ⟨0, by simp, ?_, by simpa [distAt] using hmin.symm, by simp⟩
        simp only [bruteLoop, if_pos hd]
        rw [bruteLoop_no_improve loc rest (i0 + 1) _ (by simpa using hple)]
        simp
    · -- head does not improve on `st`; the minimum must lie inside `rest`
      have hstp : st.2 ≤ ((cityblock loc p : ℕ) : WithTop ℕ) := not_lt.mp hd
      have hr : distMin loc rest < st.2 := by
        rw [distMin] at h
        rcases min_cases ((cityblock loc p : ℕ) : WithTop ℕ) (distMin loc rest) with
          ⟨heq, _⟩ | ⟨heq, _⟩
        · rw [heq] at h; exact absurd h (not_lt.mpr hstp)
        · rwa [heq] at h
      have hmin : distMin loc (p :: rest) = distMin loc rest := by
        rw [distMin, min_eq_right (le_of_lt (lt_of_lt_of_le hr hstp))]
      obtain ⟨k, hk, hres, hdk, hfirst⟩ := ih (i0 + 1) st hr
      refine ⟨k + 1, by simpa using hk, ?_, ?_, ?_⟩
      · simpa [bruteLoop, if_neg hd, Nat.add_assoc, Nat.add_comm 1 k] using hres
      · simpa [hmin, distAt] using hdk
      · intro j hj
        cases j with
        | zero =>
          have : distMin loc rest < ((cityblock loc p : ℕ) : WithTop ℕ) :=
            lt_of_lt_of_le hr hstp
          simpa [hmin, distAt] using this
        | succ j => simpa [hmin, distAt] using hfirst j (by omega)

/-- Characterization of the brute-force scan (src/main.py lines 67–71) for a
non-empty seed list: it terminates having last written the lowest index among
all seeds achieving the minimum L1 distance to `loc`, with `min_dist` equal to
that minimum distance. -/
theorem bruteScan_spec (loc : Point) (l : List Point) (h : l ≠ []) :
    ∃ k, bruteScan loc l = (some k, ((distAt loc l k : ℕ) : WithTop ℕ)) ∧
      k < l.length ∧
      (∀ j, j < l.length → distAt loc l k ≤ distAt loc l j) ∧
      (∀ j, j < l.length → distAt loc l j = distAt loc l k → k ≤ j) := by
  obtain ⟨p, rest, rfl⟩ := List.exists_cons_of_ne_nil h
  have htop : distMin loc (p :: rest) < (⊤ : WithTop ℕ) := distMin_lt_top loc p rest
  obtain ⟨k, hk, hres, hdk, hfirst⟩ := bruteLoop_fst loc (p :: rest) 0 (none, ⊤) htop
  refine ⟨k, ?_, hk, ?_, ?_⟩
  · have hsnd := bruteLoop_snd loc (p :: rest) 0 (none, ⊤)
    have : (bruteScan loc (p :: rest)).2 = distMin loc (p :: rest) := by
      simpa [bruteScan, min_eq_right (le_top (α := WithTop ℕ))] using hsnd
    have hfst : (bruteScan loc (p :: rest)).1 = some k := by simpa using hres
    have : bruteScan loc (p :: rest) =
        ((some k : Option ℕ), distMin loc (p :: rest)) := by
      exact Prod.ext hfst this
    rw [this, hdk]
  · intro j hj
    have h1 := distMin_le_distAt loc (p :: rest) j hj
    rw [← hdk] at h1
    exact_mod_cast h1
  · intro j hj hje
    by_contra hlt
    push_neg at hlt
    have := hfirst j hlt
    rw [← hdk] at this
    have : distAt loc (p :: rest) k < distAt loc (p :: rest) j := by exact_mod_cast this
    omega

theorem kdPivot_rest_length (ax : Bool) (l : List (ℕ × Point)) (h : l ≠ []) :
    (kdPivot ax l).2.length = l.length - 1 := by
  have hs : (sortByAxis ax l).length = l.length := by
    simp [sortByAxis, List.length_mergeSort]
  have hpos : 0 < l.length := List.length_pos.mpr h
  simp only [kdPivot, List.length_append, List.length_take, List.length_drop, hs]
  omega

theorem kdPivot_perm (ax : Bool) (l : List (ℕ × Point)) (h : l ≠ []) :
    (kdPivot ax l).1 :: (kdPivot ax l).2 ~ l := by
  have hs : (sortByAxis ax l).length = l.length := by
    simp [sortByAxis, List.length_mergeSort]
  have hpos : 0 < l.length := List.length_pos.mpr h
  have hm : (sortByAxis ax l).length / 2 < (sortByAxis ax l).length := by omega
  have hpiv : (kdPivot ax l).1 = (sortByAxis ax l)[(sortByAxis ax l).length / 2] := by
    simp [kdPivot, List.getD_eq_getElem?_getD, List.getElem?_eq_getElem hm]
  have hsplit : sortByAxis ax l =
      (sortByAxis ax l).take ((sortByAxis ax l).length / 2) ++
        (kdPivot ax l).1 :: (sortByAxis ax l).drop ((sortByAxis ax l).length / 2 + 1) := by
    conv_lhs => rw [← List.take_append_drop ((sortByAxis ax l).length / 2) (sortByAxis ax l)]
    rw [List.drop_eq_getElem_cons hm, hpiv]
  calc (kdPivot ax l).1 :: (kdPivot ax l).2
      = (kdPivot ax l).1 ::
          ((sortByAxis ax l).take ((sortByAxis ax l).length / 2) ++
            (sortByAxis ax l).drop ((sortByAxis ax l).length / 2 + 1)) := rfl
    _ ~ (sortByAxis ax l).take ((sortByAxis ax l).length / 2) ++
          (kdPivot ax l).1 :: (sortByAxis ax l).drop ((sortByAxis ax l).length / 2 + 1) :=
        List.perm_middle.symm
    _ = sortByAxis ax l := hsplit.symm
    _ ~ l := List.mergeSort_perm l _

theorem sortByAxis_perm (ax : Bool) (l : List (ℕ × Point)) : sortByAxis ax l ~ l :=
  List.mergeSort_perm l _

theorem kdElems_kdBuild (ax : Bool) (l : List (ℕ × Point)) :
    kdElems (kdBuild ax l) ~ l := by
  induction ax, l using kdBuild.induct with
  | case1 ax => simp [kdBuild, kdElems]
  | case2 ax s => simp [kdBuild, kdElems]
  | case3 ax a b t piv rest lf rt ihl ihr =>
    simp only [kdBuild, kdElems]
    refine List.Perm.trans (List.Perm.cons _ (List.Perm.trans (List.Perm.append ihl ihr)
      (List.filter_append_perm _ _))) ?_
    have hmk : ((kdPivot ax (a :: b :: t)).1.1, (kdPivot ax (a :: b :: t)).1.2) =
        (kdPivot ax (a :: b :: t)).1 := rfl
    rw [hmk]
    exact kdPivot_perm ax (a :: b :: t) (by simp)

theorem kdInv_kdBuild (ax : Bool) (l : List (ℕ × Point)) : KDInv (kdBuild ax l) := by
  induction ax, l using kdBuild.induct with
  | case1 ax => simp only [kdBuild]; exact KDInv.empty
  | case2 ax s => simp only [kdBuild]; exact KDInv.leaf _ _
  | case3 ax a b t piv rest lf rt ihl ihr =>
    simp only [kdBuild]
    refine KDInv.node ax _ _ _ _ ?_ ?_ ihl ihr
    · intro x hx
      have hx' : x ∈ lf := (kdElems_kdBuild (!ax) lf).mem_iff.mp hx
      have := List.of_mem_filter hx'
      simpa using this
    · intro x hx
      have hx' : x ∈ rt := (kdElems_kdBuild (!ax) rt).mem_iff.mp hx
      have := List.of_mem_filter hx'
      simp at this
      exact this

theorem pairLe_refl (a : ℕ × ℕ) : pairLe a a := Or.inr ⟨rfl, le_rfl⟩

theorem pairLe_trans {a b c : ℕ × ℕ} (h1 : pairLe a b) (h2 : pairLe b c) : pairLe a c := by
  unfold pairLe at *
  omega

theorem pairLe_total (a b : ℕ × ℕ) : pairLe a b ∨ pairLe b a := by
  unfold pairLe
  omega

theorem bmin_comm (a b : ℕ × ℕ) : bmin a b = bmin b a := by
  obtain ⟨a1, a2⟩ := a
  obtain ⟨b1, b2⟩ := b
  simp only [bmin, pairLe]
  split_ifs <;> simp_all <;> omega

theorem bmin_left_comm (a b c : ℕ × ℕ) : bmin a (bmin b c) = bmin b (bmin a c) := by
  obtain ⟨a1, a2⟩ := a
  obtain ⟨b1, b2⟩ := b
  obtain ⟨c1, c2⟩ := c
  simp only [bmin, pairLe]
  split_ifs <;> simp_all <;> omega

theorem bmin_pairLe_left (a b : ℕ × ℕ) : pairLe (bmin a b) a := by
  unfold bmin
  split_ifs with h
  · exact pairLe_refl a
  · rcases pairLe_total a b with h' | h'
    · exact absurd h' h
    · exact h'

theorem bmin_pairLe_right (a b : ℕ × ℕ) : pairLe (bmin a b) b := by
  unfold bmin
  split_ifs with h
  · exact h
  · exact pairLe_refl b

theorem bmin_eq_or (a b : ℕ × ℕ) : bmin a b = a ∨ bmin a b = b := by
  unfold bmin
  split_ifs <;> simp

theorem updateBest_comm (c c' : ℕ × ℕ) (b : Option (ℕ × ℕ)) :
    updateBest c (updateBest c' b) = updateBest c' (updateBest c b) := by
  cases b with
  | none => simp [updateBest, bmin_comm]
  | some b0 => simp [updateBest, bmin_left_comm]

theorem qfold_nil (q : Point) (best : Option (ℕ × ℕ)) : qfold q [] best = best := rfl

theorem qfold_cons (q : Point) (x : ℕ × Point) (l : List (ℕ × Point))
    (best : Option (ℕ × ℕ)) :
    qfold q (x :: l) best = updateBest (cityblock q x.2, x.1) (qfold q l best) := rfl

theorem qfold_updateBest (q : Point) (l : List (ℕ × Point)) (c : ℕ × ℕ)
    (best : Option (ℕ × ℕ)) :
    qfold q l (updateBest c best) = updateBest c (qfold q l best) := by
  induction l with
  | nil => rfl
  | cons x xs ih => rw [qfold_cons, qfold_cons, ih, updateBest_comm]

theorem qfold_append (q : Point) (l1 l2 : List (ℕ × Point)) (best : Option (ℕ × ℕ)) :
    qfold q (l1 ++ l2) best = qfold q l1 (qfold q l2 best) :=
  List.foldr_append ..

theorem qfold_comm (q : Point) (l1 l2 : List (ℕ × Point)) (best : Option (ℕ × ℕ)) :
    qfold q l1 (qfold q l2 best) = qfold q l2 (qfold q l1 best) := by
  induction l1 with
  | nil => rfl
  | cons x xs ih =>
    rw [qfold_cons, qfold_cons, ih, ← qfold_updateBest]

theorem qfold_perm (q : Point) {l1 l2 : List (ℕ × Point)} (hp : l1 ~ l2)
    (best : Option (ℕ × ℕ)) : qfold q l1 best = qfold q l2 best := by
  induction hp generalizing best with
  | nil => rfl
  | cons x _ ih => rw [qfold_cons, qfold_cons, ih]
  | swap x y l => rw [qfold_cons, qfold_cons, qfold_cons, qfold_cons, updateBest_comm]
  | trans _ _ ih1 ih2 => rw [ih1, ih2]

theorem qfold_no_improve (q : Point) (l : List (ℕ × Point)) (d0 i0 : ℕ)
    (h : ∀ x ∈ l, d0 < cityblock q x.2) :
    qfold q l (some (d0, i0)) = some (d0, i0) := by
  induction l with
  | nil => rfl
  | cons x xs ih =>
    rw [qfold_cons, ih (fun y hy => h y (List.mem_cons_of_mem x hy))]
    have hx := h x (List.mem_cons_self x xs)
    simp only [updateBest, bmin, pairLe]
    rw [if_neg (by omega)]

theorem cityblock_axis_lower (ax : Bool) (q x : Point) :
    (axisVal ax q - axisVal ax x).natAbs ≤ cityblock q x := by
  cases ax <;> simp [axisVal, cityblock]

/-- A point on the far side of the splitting plane is at least the
perpendicular distance away from the query point. -/
theorem far_bound (ax : Bool) (q p x : Point)
    (h : (axisVal ax q ≤ axisVal ax p ∧ axisVal ax p < axisVal ax x) ∨
         (axisVal ax p < axisVal ax q ∧ axisVal ax x ≤ axisVal ax p)) :
    (axisVal ax q - axisVal ax p).natAbs ≤ cityblock q x := by
  have h2 := cityblock_axis_lower ax q x
  omega

theorem farNeeded_eq_false {axd : ℕ} {b : Option (ℕ × ℕ)}
    (h : farNeeded axd b = false) : ∃ d0 i0, b = some (d0, i0) ∧ d0 < axd := by
  cases b with
  | none => simp [farNeeded] at h
  | some b0 =>
    refine ⟨b0.1, b0.2, by simp, ?_⟩
    simp [farNeeded] at h
    omega

/-- A pruned query visits enough of the tree: on any subtree satisfying the
structural invariant, the query from any starting candidate computes exactly
the fold of all the subtree's seeds into that candidate. -/
theorem kdQuery_eq_qfold (q : Point) {t : KDNode} (hinv : KDInv t)
    (best : Option (ℕ × ℕ)) : kdQuery q t best = qfold q (kdElems t) best := by
  induction hinv generalizing best with
  | empty => rfl
  | leaf i p => rfl
  | node ax i p l r hl hr invl invr ihl ihr =>
    have hRHS : qfold q (kdElems (.node ax i p l r)) best =
        qfold q (kdElems r) (qfold q (kdElems l) (updateBest (cityblock q p, i) best)) := by
      show qfold q ((i, p) :: (kdElems l ++ kdElems r)) best = _
      rw [qfold_cons, qfold_append, ← qfold_updateBest, ← qfold_updateBest, qfold_comm]
    rw [hRHS]
    by_cases hq : axisVal ax q ≤ axisVal ax p
    · simp only [kdQuery, if_pos hq]
      rw [ihl]
      by_cases hf : farNeeded (axisVal ax q - axisVal ax p).natAbs
          (qfold q (kdElems l) (updateBest (cityblock q p, i) best)) = true
      · rw [if_pos hf, ihr]
      · rw [if_neg hf]
        obtain ⟨d0, i0, hb, hd0⟩ := farNeeded_eq_false (Bool.not_eq_true _ ▸ hf)
        rw [hb, qfold_no_improve]
        intro x hx
        have hax := hr x hx
        have := far_bound ax q p x.2 (Or.inl ⟨hq, hax⟩)
        omega
    · simp only [kdQuery, if_neg hq]
      rw [ihr]
      rw [qfold_comm]
      by_cases hf : farNeeded (axisVal ax q - axisVal ax p).natAbs
          (qfold q (kdElems r) (updateBest (cityblock q p, i) best)) = true
      · rw [if_pos hf, ihl]
      · rw [if_neg hf]
        obtain ⟨d0, i0, hb, hd0⟩ := farNeeded_eq_false (Bool.not_eq_true _ ▸ hf)
        rw [hb, qfold_no_improve]
        intro x hx
        have hax := hl x hx
        push_neg at hq
        have := far_bound ax q p x.2 (Or.inr ⟨hq, hax⟩)
        omega

/-- Folding a non-empty candidate list from `none` yields the lexicographic
minimum of `(distance, index)` over the list. -/
theorem qfold_none_spec (q : Point) (l : List (ℕ × Point)) (h : l ≠ []) :
    ∃ d k, qfold q l none = some (d, k) ∧
      (∃ x ∈ l, x.1 = k ∧ cityblock q x.2 = d) ∧
      ∀ y ∈ l, pairLe (d, k) (cityblock q y.2, y.1) := by
  induction l with
  | nil => exact absurd rfl h
  | cons x xs ih =>
    cases xs with
    | nil =>
      refine ⟨cityblock q x.2, x.1, rfl, ⟨x, by simp, rfl, rfl⟩, ?_⟩
      intro y hy
      simp only [List.mem_singleton] at hy
      subst hy
      exact pairLe_refl _
    | cons x2 xs2 =>
      obtain ⟨d, k, hfold, ⟨w, hw, hwk, hwd⟩, hall⟩ := ih (by simp)
      rw [qfold_cons, hfold]
      by_cases hle : pairLe (cityblock q x.2, x.1) (d, k)
      · refine ⟨cityblock q x.2, x.1, ?_, ⟨x, by simp, rfl, rfl⟩, ?_⟩
        · simp [updateBest, bmin, if_pos hle]
        · intro y hy
          rcases List.mem_cons.mp hy with rfl | hy'
          · exact pairLe_refl _
          · exact pairLe_trans hle (hall y hy')
      · refine ⟨d, k, ?_, ⟨w, List.mem_cons_of_mem _ hw, hwk, hwd⟩, ?_⟩
        · simp [updateBest, bmin, if_neg hle]
        · intro y hy
          rcases List.mem_cons.mp hy with rfl | hy'
          · rcases pairLe_total (cityblock q y.2, y.1) (d, k) with h' | h'
            · exact absurd h' hle
            · exact h'
          · exact hall y hy'

theorem idxList_length (i0 : ℕ) (l : List Point) :
    (idxList i0 l).length = l.length := by
  induction l generalizing i0 with
  | nil => rfl
  | cons p rest ih => simp [idxList, ih]

theorem mem_idxList (i0 : ℕ) (l : List Point) (x : ℕ × Point) :
    x ∈ idxList i0 l ↔
      ∃ j, j < l.length ∧ x.1 = i0 + j ∧ x.2 = l.getD j ((0 : ℤ), (0 : ℤ)) := by
  induction l generalizing i0 with
  | nil => simp [idxList]
  | cons p rest ih =>
    simp only [idxList, List.mem_cons, ih]
    constructor
    · rintro (rfl | ⟨j, hj, h1, h2⟩)
      · exact ⟨0, by simp, by simp, by simp⟩
      · exact ⟨j + 1, by simpa using hj, by omega, by simpa using h2⟩
    · rintro ⟨j, hj, h1, h2⟩
      cases j with
      | zero =>
        left
        have hx2 : x.2 = p := by simpa using h2
        have hx1 : x.1 = i0 := by omega
        calc x = (x.1, x.2) := rfl
          _ = (i0, p) := by rw [hx1, hx2]
      | succ j =>
        right
        exact ⟨j, by simpa using hj, by omega, by simpa using h2⟩

/-- The spatial-index query returns the lowest index among all seeds at
minimum L1 distance from the query point. -/
theorem kdNearestIdx_spec (sources : List Point) (q : Point) (h : sources ≠ []) :
    ∃ k, kdNearestIdx sources q = some k ∧ k < sources.length ∧
      (∀ j, j < sources.length → distAt q sources k ≤ distAt q sources j) ∧
      (∀ j, j < sources.length → distAt q sources j = distAt q sources k → k ≤ j) := by
  have hiperm := kdElems_kdBuild false (idxList 0 sources)
  have hinv := kdInv_kdBuild false (idxList 0 sources)
  have hq := kdQuery_eq_qfold q hinv none
  rw [qfold_perm q hiperm] at hq
  have hne : idxList 0 sources ≠ [] := by
    intro hc
    have hlen := idxList_length 0 sources
    rw [hc] at hlen
    exact h (List.length_eq_zero.mp hlen.symm)
  obtain ⟨d, k, hfold, ⟨w, hw, hwk, hwd⟩, hall⟩ := qfold_none_spec q (idxList 0 sources) hne
  rw [hfold] at hq
  obtain ⟨j, hj, hj1, hj2⟩ := (mem_idxList 0 sources w).mp hw
  have hkj : k = j := by omega
  have hdk : distAt q sources k = d := by
    rw [distAt, hkj, ← hj2, hwd]
  have hmain : ∀ j', j' < sources.length → pairLe (d, k) (distAt q sources j', j') := by
    intro j' hj'
    have hmem : ((0 + j' : ℕ), sources.getD j' ((0 : ℤ), (0 : ℤ))) ∈ idxList 0 sources :=
      (mem_idxList 0 sources _).mpr ⟨j', hj', rfl, rfl⟩
    have := hall _ hmem
    simpa [distAt] using this
  refine ⟨k, ?_, by omega, ?_, ?_⟩
  · simp [kdNearestIdx, hq]
  · intro j' hj'
    have := hmain j' hj'
    rw [hdk]
    unfold pairLe at this
    omega
  · intro j' hj' hje
    have := hmain j' hj'
    rw [hdk] at hje
    unfold pairLe at this
    omega

/-- The pair (minimum distance achieved, lowest index achieving it) is unique:
two indices that both minimize the distance and are both lowest are equal. -/
theorem nearest_unique (loc : Point) (l : List Point) (k1 k2 : ℕ)
    (h1 : k1 < l.length) (h2 : k2 < l.length)
    (hmin1 : ∀ j, j < l.length → distAt loc l k1 ≤ distAt loc l j)
    (hmin2 : ∀ j, j < l.length → distAt loc l k2 ≤ distAt loc l j)
    (hlow1 : ∀ j, j < l.length → distAt loc l j = distAt loc l k1 → k1 ≤ j)
    (hlow2 : ∀ j, j < l.length → distAt loc l j = distAt loc l k2 → k2 ≤ j) :
    k1 = k2 := by
  have he : distAt loc l k1 = distAt loc l k2 :=
    le_antisymm (hmin1 k2 h2) (hmin2 k1 h1)
  have ha := hlow1 k2 h2 he.symm
  have hb := hlow2 k1 h1 he
  omega

/-- Both searchers agree on every query: the spatial-index query returns
exactly the index the brute-force scan retains. -/
theorem kd_eq_brute_nearest (sources : List Point) (q : Point) (h : sources ≠ []) :
    kdNearestIdx sources q = (bruteScan q sources).1 := by
  obtain ⟨kb, hb, hbl, hbmin, hblow⟩ := bruteScan_spec q sources h
  obtain ⟨kk, hk, hkl, hkmin, hklow⟩ := kdNearestIdx_spec sources q h
  have hkk : kk = kb := nearest_unique q sources kk kb hkl hbl hkmin hbmin hklow hblow
  rw [hk, hb, hkk]

theorem foldl_pair_fst {α β γ : Type} (step : β → γ → β) (l : List γ) (p : α × β) :
    l.foldl (fun st x => (st.1, step st.2 x)) p = (p.1, l.foldl step p.2) := by
  induction l generalizing p with
  | nil => rfl
  | cons a rest ih => simp only [List.foldl_cons, ih]

theorem foldl_setCell (f : Point → ℚ → ℚ) (l : List Point) (hnd : l.Nodup)
    (g : Grid) (c : Point) :
    (l.foldl (fun g2 loc => setCell g2 loc (f loc (g2 loc))) g) c =
      if c ∈ l then f c (g c) else g c := by
  induction l generalizing g with
  | nil => simp
  | cons a rest ih =>
    have ha : a ∉ rest := (List.nodup_cons.mp hnd).1
    have hnd' : rest.Nodup := (List.nodup_cons.mp hnd).2
    simp only [List.foldl_cons]
    rw [ih hnd']
    by_cases hc : c ∈ rest
    · have hca : c ≠ a := fun hh => ha (hh ▸ hc)
      simp [setCell, hc, hca]
    · by_cases hca : c = a
      · subst hca
        simp [setCell, hc]
      · simp [setCell, hc, hca]

theorem gridCells_nodup (S : ℕ) : (gridCells S).Nodup := by
  rw [gridCells, List.nodup_flatMap]
  constructor
  · intro r _
    refine List.Nodup.map ?_ (List.nodup_range S)
    intro c1 c2 hcc
    simpa using congrArg Prod.snd hcc
  · refine List.Pairwise.imp ?_ (List.pairwise_lt_range S)
    intro r1 r2 hr
    rw [Function.onFun, List.disjoint_left]
    intro c hc1 hc2
    simp only [List.mem_map, List.mem_range] at hc1 hc2
    obtain ⟨v1, _, hv1⟩ := hc1
    obtain ⟨v2, _, hv2⟩ := hc2
    rw [← hv2] at hv1
    have := congrArg Prod.fst hv1
    simp at this
    omega

theorem mem_gridCells (S : ℕ) (c : Point) :
    c ∈ gridCells S ↔ ∃ r v : ℕ, r < S ∧ v < S ∧ c = ((r : ℤ), (v : ℤ)) := by
  simp only [gridCells, List.mem_flatMap, List.mem_map, List.mem_range]
  constructor
  · rintro ⟨r, hr, v, hv, rfl⟩
    exact ⟨r, v, hr, hv, rfl⟩
  · rintro ⟨r, v, hr, hv, rfl⟩
    exact ⟨r, hr, v, hv, rfl⟩

theorem bruteRaster_fst (sources : List Point) (S : ℕ) :
    (bruteRaster sources S).1 = markGrid sources :=
  congrArg Prod.fst
    (foldl_pair_fst (fun g2 loc => setCell g2 loc (bruteCellValue sources (g2 loc) loc))
      (gridCells S) (markGrid sources, markGrid sources))

theorem kdRaster_fst (sources : List Point) (S : ℕ) :
    (kdRaster sources S).1 = markGrid sources :=
  congrArg Prod.fst
    (foldl_pair_fst (fun g2 loc => setCell g2 loc (kdCellValue sources loc))
      (gridCells S) (markGrid sources, markGrid sources))

theorem bruteRaster_snd (sources : List Point) (S : ℕ) (c : Point) :
    (bruteRaster sources S).2 c =
      if c ∈ gridCells S then bruteCellValue sources (markGrid sources c) c
      else markGrid sources c := by
  have h1 : (bruteRaster sources S).2 =
      (gridCells S).foldl
        (fun g2 loc => setCell g2 loc (bruteCellValue sources (g2 loc) loc))
        (markGrid sources) :=
    congrArg Prod.snd
      (foldl_pair_fst (fun g2 loc => setCell g2 loc (bruteCellValue sources (g2 loc) loc))
        (gridCells S) (markGrid sources, markGrid sources))
  rw [h1]
  exact foldl_setCell (fun loc v => bruteCellValue sources v loc) (gridCells S)
    (gridCells_nodup S) (markGrid sources) c

theorem kdRaster_snd (sources : List Point) (S : ℕ) (c : Point) :
    (kdRaster sources S).2 c =
      if c ∈ gridCells S then kdCellValue sources c else markGrid sources c := by
  have h1 : (kdRaster sources S).2 =
      (gridCells S).foldl (fun g2 loc => setCell g2 loc (kdCellValue sources loc))
        (markGrid sources) :=
    congrArg Prod.snd
      (foldl_pair_fst (fun g2 loc => setCell g2 loc (kdCellValue sources loc))
        (gridCells S) (markGrid sources, markGrid sources))
  rw [h1]
  exact foldl_setCell (fun loc _ => kdCellValue sources loc) (gridCells S)
    (gridCells_nodup S) (markGrid sources) c

theorem cell_mem_gridCells {S r c : ℕ} (hr : r < S) (hc : c < S) :
    ((r : ℤ), (c : ℤ)) ∈ gridCells S :=
  (mem_gridCells S _).mpr ⟨r, c, hr, hc, rfl⟩

/-- On a non-empty seed list both branches store the same value at every
cell: the rescaled index retained by the brute-force scan. -/
theorem bruteCellValue_eq_kd (sources : List Point) (init : ℚ) (loc : Point)
    (h : sources ≠ []) :
    bruteCellValue sources init loc = kdCellValue sources loc := by
  obtain ⟨k, hk, _, _, _⟩ := bruteScan_spec loc sources h
  have hkd : kdNearestIdx sources loc = some k := by
    rw [kd_eq_brute_nearest sources loc h, hk]
  simp [bruteCellValue, kdCellValue, hk, hkd]

theorem cityblock_eq_zero_iff (a b : Point) : cityblock a b = 0 ↔ a = b := by
  obtain ⟨a1, a2⟩ := a
  obtain ⟨b1, b2⟩ := b
  simp only [cityblock, Prod.mk.injEq]
  omega

/- ### The claims -/

/-- C1: for every seed list with N ≥ 1 and every grid size S ≥ 1, the run with
the KDTree-backed searcher and the run with the brute-force searcher both
succeed and produce identical output grids, cell for cell. -/
theorem raster_equivalence (sources : List Point) (S : ℕ) (h : sources ≠ [])
    (hS : 1 ≤ S) :
    runVoronoi false sources S = Except.ok (kdRaster sources S) ∧
    runVoronoi true sources S = Except.ok (bruteRaster sources S) ∧
    ∀ r c : ℕ, r < S → c < S →
      (kdRaster sources S).2 ((r : ℤ), (c : ℤ)) =
        (bruteRaster sources S).2 ((r : ℤ), (c : ℤ)) := by
  refine ⟨?_, rfl, ?_⟩
  · have : sources.isEmpty = false := by
      cases sources with
      | nil => exact absurd rfl h
      | cons a t => rfl
    simp [runVoronoi, this]
  · intro r c hr hc
    have hmem := cell_mem_gridCells hr hc
    rw [kdRaster_snd, bruteRaster_snd, if_pos hmem, if_pos hmem,
      bruteCellValue_eq_kd sources _ _ h]

/-- C1 witness: a concrete run (seeds [(0,0),(1,1)], S = 2). -/
theorem raster_equivalence_witness :
    ([((0 : ℤ), (0 : ℤ)), ((1 : ℤ), (1 : ℤ))] ≠ ([] : List Point)) ∧ 1 ≤ 2 ∧
    (runVoronoi false [((0 : ℤ), (0 : ℤ)), ((1 : ℤ), (1 : ℤ))] 2 =
        Except.ok (kdRaster [((0 : ℤ), (0 : ℤ)), ((1 : ℤ), (1 : ℤ))] 2) ∧
      runVoronoi true [((0 : ℤ), (0 : ℤ)), ((1 : ℤ), (1 : ℤ))] 2 =
        Except.ok (bruteRaster [((0 : ℤ), (0 : ℤ)), ((1 : ℤ), (1 : ℤ))] 2) ∧
      ∀ r c : ℕ, r < 2 → c < 2 →
        (kdRaster [((0 : ℤ), (0 : ℤ)), ((1 : ℤ), (1 : ℤ))] 2).2 ((r : ℤ), (c : ℤ)) =
          (bruteRaster [((0 : ℤ), (0 : ℤ)), ((1 : ℤ), (1 : ℤ))] 2).2 ((r : ℤ), (c : ℤ))) :=
  ⟨by decide, by decide, raster_equivalence _ 2 (by decide) (by decide)⟩

/-- C2: the brute-force scan visits seeds in index order keeping a candidate
only on strict improvement of the L1 distance, and for a non-empty seed list
the final retained index is the lowest index among all seeds achieving the
minimum L1 distance to the query cell. -/
theorem brute_scan_lowest_index (sources : List Point) (loc : Point)
    (h : sources ≠ []) :
    ∃ k, (bruteScan loc sources).1 = some k ∧ k < sources.length ∧
      (∀ j, j < sources.length → distAt loc sources k ≤ distAt loc sources j) ∧
      (∀ j, j < sources.length → distAt loc sources j = distAt loc sources k → k ≤ j) := by
  obtain ⟨k, hk, h1, h2, h3⟩ := bruteScan_spec loc sources h
  exact ⟨k, by rw [hk], h1, h2, h3⟩

/-- C2 witness: seeds [(0,0),(0,2)] and query cell (0,1) — both seeds are at
distance 1 and the scan retains index 0. -/
theorem brute_scan_lowest_index_witness :
    ([((0 : ℤ), (0 : ℤ)), ((0 : ℤ), (2 : ℤ))] ≠ ([] : List Point)) ∧
    ∃ k, (bruteScan ((0 : ℤ), (1 : ℤ)) [((0 : ℤ), (0 : ℤ)), ((0 : ℤ), (2 : ℤ))]).1 = some k ∧
      k < ([((0 : ℤ), (0 : ℤ)), ((0 : ℤ), (2 : ℤ))] : List Point).length ∧
      (∀ j, j < ([((0 : ℤ), (0 : ℤ)), ((0 : ℤ), (2 : ℤ))] : List Point).length →
        distAt ((0 : ℤ), (1 : ℤ)) [((0 : ℤ), (0 : ℤ)), ((0 : ℤ), (2 : ℤ))] k ≤
          distAt ((0 : ℤ), (1 : ℤ)) [((0 : ℤ), (0 : ℤ)), ((0 : ℤ), (2 : ℤ))] j) ∧
      (∀ j, j < ([((0 : ℤ), (0 : ℤ)), ((0 : ℤ), (2 : ℤ))] : List Point).length →
        distAt ((0 : ℤ), (1 : ℤ)) [((0 : ℤ), (0 : ℤ)), ((0 : ℤ), (2 : ℤ))] j =
          distAt ((0 : ℤ), (1 : ℤ)) [((0 : ℤ), (0 : ℤ)), ((0 : ℤ), (2 : ℤ))] k → k ≤ j) :=
  ⟨by decide, brute_scan_lowest_index _ _ (by decide)⟩

/-- C3 counterexample: with seeds [(0,0),(0,2),(2,0)] and query cell (0,0),
seeds 1 and 2 are equidistant (L1 distance 2), yet neither searcher returns
index 1 = min 1 2 — seed 0 is strictly closer, so both return 0. -/
theorem tie_lower_index_cex :
    cityblock ((0 : ℤ), (0 : ℤ)) ((0 : ℤ), (2 : ℤ)) =
      cityblock ((0 : ℤ), (0 : ℤ)) ((2 : ℤ), (0 : ℤ)) ∧
    (bruteScan ((0 : ℤ), (0 : ℤ))
        [((0 : ℤ), (0 : ℤ)), ((0 : ℤ), (2 : ℤ)), ((2 : ℤ), (0 : ℤ))]).1 ≠ some 1 ∧
    kdNearestIdx [((0 : ℤ), (0 : ℤ)), ((0 : ℤ), (2 : ℤ)), ((2 : ℤ), (0 : ℤ))]
        ((0 : ℤ), (0 : ℤ)) ≠ some 1 := by
  refine ⟨by decide, by decide, ?_⟩
  rw [kd_eq_brute_nearest _ _ (by decide)]
  decide

/-- C3 amended: if two seeds are at equal L1 distance from the query cell and
that distance is minimal among all seeds, then both searchers return the same
index, which is at most the lower of the two (the lowest index achieving the
minimum). -/
theorem tie_lowest_index (sources : List Point) (q : Point) (i j : ℕ)
    (hi : i < sources.length) (hj : j < sources.length)
    (he : distAt q sources i = distAt q sources j)
    (hmin : ∀ t, t < sources.length → distAt q sources i ≤ distAt q sources t) :
    ∃ k, (bruteScan q sources).1 = some k ∧ kdNearestIdx sources q = some k ∧
      k ≤ min i j ∧ distAt q sources k = distAt q sources i := by
  have hne : sources ≠ [] := by
    intro hc
    rw [hc] at hi
    simp at hi
  obtain ⟨k, hk, hkl, hkmin, hklow⟩ := bruteScan_spec q sources hne
  have he' : distAt q sources i = distAt q sources k :=
    le_antisymm (hmin k hkl) (hkmin i hi)
  have hki : k ≤ i := hklow i hi he'
  have hkj : k ≤ j := hklow j hj (by rw [← he, he'])
  refine ⟨k, by rw [hk], ?_, by omega, he'.symm⟩
  rw [kd_eq_brute_nearest sources q hne, hk]

/-- C3 amended witness: seeds [(0,2),(2,0)], query (0,0): both seeds tie at
the minimum distance 2 and both searchers return 0 = min 0 1. -/
theorem tie_lowest_index_witness :
    0 < ([((0 : ℤ), (2 : ℤ)), ((2 : ℤ), (0 : ℤ))] : List Point).length ∧
    1 < ([((0 : ℤ), (2 : ℤ)), ((2 : ℤ), (0 : ℤ))] : List Point).length ∧
    distAt ((0 : ℤ), (0 : ℤ)) [((0 : ℤ), (2 : ℤ)), ((2 : ℤ), (0 : ℤ))] 0 =
      distAt ((0 : ℤ), (0 : ℤ)) [((0 : ℤ), (2 : ℤ)), ((2 : ℤ), (0 : ℤ))] 1 ∧
    (∀ t, t < ([((0 : ℤ), (2 : ℤ)), ((2 : ℤ), (0 : ℤ))] : List Point).length →
      distAt ((0 : ℤ), (0 : ℤ)) [((0 : ℤ), (2 : ℤ)), ((2 : ℤ), (0 : ℤ))] 0 ≤
        distAt ((0 : ℤ), (0 : ℤ)) [((0 : ℤ), (2 : ℤ)), ((2 : ℤ), (0 : ℤ))] t) ∧
    ∃ k, (bruteScan ((0 : ℤ), (0 : ℤ)) [((0 : ℤ), (2 : ℤ)), ((2 : ℤ), (0 : ℤ))]).1 = some k ∧
      kdNearestIdx [((0 : ℤ), (2 : ℤ)), ((2 : ℤ), (0 : ℤ))] ((0 : ℤ), (0 : ℤ)) = some k ∧
      k ≤ min 0 1 ∧
      distAt ((0 : ℤ), (0 : ℤ)) [((0 : ℤ), (2 : ℤ)), ((2 : ℤ), (0 : ℤ))] k =
        distAt ((0 : ℤ), (0 : ℤ)) [((0 : ℤ), (2 : ℤ)), ((2 : ℤ), (0 : ℤ))] 0 :=
  ⟨by decide, by decide, by decide, by decide,
    tie_lowest_index _ _ 0 1 (by decide) (by decide) (by decide) (by decide)⟩

/-- C4 counterexample: with seeds [(0,0),(1,1)] on a 2×2 grid, the nearest
seed of cell (1,1) has index 1, but the loop stores 255/2 — a rescaled
display intensity, not the raw index. -/
theorem raw_label_cex :
    (bruteRaster [((0 : ℤ), (0 : ℤ)), ((1 : ℤ), (1 : ℤ))] 2).2 ((1 : ℤ), (1 : ℤ)) =
      255 / 2 ∧
    ((255 : ℚ) / 2 ≠ ((1 : ℕ) : ℚ)) ∧
    (kdRaster [((0 : ℤ), (0 : ℤ)), ((1 : ℤ), (1 : ℤ))] 2).2 ((1 : ℤ), (1 : ℤ)) =
      255 / 2 := by
  have hscan : (bruteScan ((1 : ℤ), (1 : ℤ))
      [((0 : ℤ), (0 : ℤ)), ((1 : ℤ), (1 : ℤ))]).1 = some 1 := by decide
  have hmem : ((1 : ℤ), (1 : ℤ)) ∈ gridCells 2 := by decide
  refine ⟨?_, by norm_num, ?_⟩
  · rw [bruteRaster_snd, if_pos hmem]
    simp only [bruteCellValue]
    rw [hscan]
    norm_num
  · rw [kdRaster_snd, if_pos hmem, ← bruteCellValue_eq_kd _ 0 _ (by decide)]
    simp only [bruteCellValue]
    rw [hscan]
    norm_num

/-- C4 amended: the value stored for each in-grid cell is
`(255 / N) * k` with `k` the searcher's returned index (an integer in
`[0, N)`): the rescaling to a display intensity is performed inside the core
rasterization loop itself, for both searchers. -/
theorem stored_value_rescaled (sources : List Point) (S : ℕ) (h : sources ≠ [])
    (r c : ℕ) (hr : r < S) (hc : c < S) :
    ∃ k, k < sources.length ∧
      (bruteScan ((r : ℤ), (c : ℤ)) sources).1 = some k ∧
      kdNearestIdx sources ((r : ℤ), (c : ℤ)) = some k ∧
      (bruteRaster sources S).2 ((r : ℤ), (c : ℤ)) =
        (255 / (sources.length : ℚ)) * (k : ℚ) ∧
      (kdRaster sources S).2 ((r : ℤ), (c : ℤ)) =
        (255 / (sources.length : ℚ)) * (k : ℚ) := by
  obtain ⟨k, hk, hkl, _, _⟩ := bruteScan_spec ((r : ℤ), (c : ℤ)) sources h
  have hkd : kdNearestIdx sources ((r : ℤ), (c : ℤ)) = some k := by
    rw [kd_eq_brute_nearest sources _ h, hk]
  have hmem := cell_mem_gridCells hr hc
  refine ⟨k, hkl, by rw [hk], hkd, ?_, ?_⟩
  · rw [bruteRaster_snd, if_pos hmem]
    simp [bruteCellValue, hk]
  · rw [kdRaster_snd, if_pos hmem]
    simp [kdCellValue, hkd]

/-- C4 amended witness: seeds [(0,0),(1,1)], S = 2, cell (1,1). -/
theorem stored_value_rescaled_witness :
    ([((0 : ℤ), (0 : ℤ)), ((1 : ℤ), (1 : ℤ))] ≠ ([] : List Point)) ∧
    1 < 2 ∧ 1 < 2 ∧
    ∃ k, k < ([((0 : ℤ), (0 : ℤ)), ((1 : ℤ), (1 : ℤ))] : List Point).length ∧
      (bruteScan ((1 : ℤ), (1 : ℤ)) [((0 : ℤ), (0 : ℤ)), ((1 : ℤ), (1 : ℤ))]).1 = some k ∧
      kdNearestIdx [((0 : ℤ), (0 : ℤ)), ((1 : ℤ), (1 : ℤ))] ((1 : ℤ), (1 : ℤ)) = some k ∧
      (bruteRaster [((0 : ℤ), (0 : ℤ)), ((1 : ℤ), (1 : ℤ))] 2).2 ((1 : ℤ), (1 : ℤ)) =
        (255 / (([((0 : ℤ), (0 : ℤ)), ((1 : ℤ), (1 : ℤ))] : List Point).length : ℚ)) * (k : ℚ) ∧
      (kdRaster [((0 : ℤ), (0 : ℤ)), ((1 : ℤ), (1 : ℤ))] 2).2 ((1 : ℤ), (1 : ℤ)) =
        (255 / (([((0 : ℤ), (0 : ℤ)), ((1 : ℤ), (1 : ℤ))] : List Point).length : ℚ)) * (k : ℚ) :=
  ⟨by decide, by decide, by decide,
    stored_value_rescaled _ 2 (by decide) 1 1 (by decide) (by decide)⟩

/-- C5 counterexample: with N = 0 and the brute-force strategy selected the
run does not fail — it returns a grid — while the claim demands an
InvalidInput failure for both strategies (the KDTree strategy does fail). -/
theorem empty_fail_cex :
    (runVoronoi true ([] : List Point) 1).toOption.isSome = true ∧
    runVoronoi false ([] : List Point) 1 = Except.error "InvalidInput" :=
  ⟨rfl, rfl⟩

/-- C5 amended: with an empty seed list the KDTree strategy fails with
InvalidInput at index construction, before any rasterization; the brute-force
strategy performs no construction and completes without error. -/
theorem empty_seed_invalid_input (S : ℕ) :
    runVoronoi false ([] : List Point) S = Except.error "InvalidInput" ∧
    (runVoronoi true ([] : List Point) S).toOption.isSome = true :=
  ⟨rfl, rfl⟩

/-- C6 counterexample: with seeds [(0,0),(1,1)] on a 2×2 grid, cell (1,1)
holds 255/2, which is neither of the two labels 0 and 1 of [0, 2). -/
theorem label_range_cex :
    (bruteRaster [((0 : ℤ), (0 : ℤ)), ((1 : ℤ), (1 : ℤ))] 2).2 ((1 : ℤ), (1 : ℤ)) ≠
      ((0 : ℕ) : ℚ) ∧
    (bruteRaster [((0 : ℤ), (0 : ℤ)), ((1 : ℤ), (1 : ℤ))] 2).2 ((1 : ℤ), (1 : ℤ)) ≠
      ((1 : ℕ) : ℚ) := by
  have hscan : (bruteScan ((1 : ℤ), (1 : ℤ))
      [((0 : ℤ), (0 : ℤ)), ((1 : ℤ), (1 : ℤ))]).1 = some 1 := by decide
  have hmem : ((1 : ℤ), (1 : ℤ)) ∈ gridCells 2 := by decide
  constructor <;>
    · rw [bruteRaster_snd, if_pos hmem]
      simp only [bruteCellValue]
      rw [hscan]
      norm_num

/-- C6 amended: after rasterization every in-grid cell holds exactly one
value, namely `(255 / N) * l` where `l ∈ [0, N)` is the label of its nearest
seed — the lowest index among all seeds at the minimum L1 distance; no cell
is left unassigned, for either searcher. -/
theorem totality_rescaled (sources : List Point) (S : ℕ) (h : sources ≠ [])
    (r c : ℕ) (hr : r < S) (hc : c < S) :
    ∃ l, l < sources.length ∧
      (∀ j, j < sources.length →
        distAt ((r : ℤ), (c : ℤ)) sources l ≤ distAt ((r : ℤ), (c : ℤ)) sources j) ∧
      (∀ j, j < sources.length →
        distAt ((r : ℤ), (c : ℤ)) sources j = distAt ((r : ℤ), (c : ℤ)) sources l →
          l ≤ j) ∧
      (bruteRaster sources S).2 ((r : ℤ), (c : ℤ)) =
        (255 / (sources.length : ℚ)) * (l : ℚ) ∧
      (kdRaster sources S).2 ((r : ℤ), (c : ℤ)) =
        (255 / (sources.length : ℚ)) * (l : ℚ) := by
  obtain ⟨k, hk, hkl, hkmin, hklow⟩ := bruteScan_spec ((r : ℤ), (c : ℤ)) sources h
  have hkd : kdNearestIdx sources ((r : ℤ), (c : ℤ)) = some k := by
    rw [kd_eq_brute_nearest sources _ h, hk]
  have hmem := cell_mem_gridCells hr hc
  refine ⟨k, hkl, hkmin, hklow, ?_, ?_⟩
  · rw [bruteRaster_snd, if_pos hmem]
    simp [bruteCellValue, hk]
  · rw [kdRaster_snd, if_pos hmem]
    simp [kdCellValue, hkd]

/-- C6 amended witness: seeds [(0,0)], S = 1, cell (0,0). -/
theorem totality_rescaled_witness :
    ([((0 : ℤ), (0 : ℤ))] ≠ ([] : List Point)) ∧ 0 < 1 ∧ 0 < 1 ∧
    ∃ l, l < ([((0 : ℤ), (0 : ℤ))] : List Point).length ∧
      (∀ j, j < ([((0 : ℤ), (0 : ℤ))] : List Point).length →
        distAt ((0 : ℤ), (0 : ℤ)) [((0 : ℤ), (0 : ℤ))] l ≤
          distAt ((0 : ℤ), (0 : ℤ)) [((0 : ℤ), (0 : ℤ))] j) ∧
      (∀ j, j < ([((0 : ℤ), (0 : ℤ))] : List Point).length →
        distAt ((0 : ℤ), (0 : ℤ)) [((0 : ℤ), (0 : ℤ))] j =
          distAt ((0 : ℤ), (0 : ℤ)) [((0 : ℤ), (0 : ℤ))] l → l ≤ j) ∧
      (bruteRaster [((0 : ℤ), (0 : ℤ))] 1).2 ((0 : ℤ), (0 : ℤ)) =
        (255 / (([((0 : ℤ), (0 : ℤ))] : List Point).length : ℚ)) * (l : ℚ) ∧
      (kdRaster [((0 : ℤ), (0 : ℤ))] 1).2 ((0 : ℤ), (0 : ℤ)) =
        (255 / (([((0 : ℤ), (0 : ℤ))] : List Point).length : ℚ)) * (l : ℚ) :=
  ⟨by decide, by decide, by decide,
    totality_rescaled _ 1 (by decide) 0 0 (by decide) (by decide)⟩

/-- C7: the cell coinciding with seed `i`'s coordinates is labeled `i`
(both searchers return `i` there, and the grids hold the rescaled value of
`i`), provided no seed with a lower index has the identical coordinates. -/
theorem seed_cell_self_identity (sources : List Point) (S : ℕ) (i : ℕ)
    (hi : i < sources.length)
    (hin : sources.getD i ((0 : ℤ), (0 : ℤ)) ∈ gridCells S)
    (hlow : ∀ j, j < i →
      sources.getD j ((0 : ℤ), (0 : ℤ)) ≠ sources.getD i ((0 : ℤ), (0 : ℤ))) :
    (bruteScan (sources.getD i ((0 : ℤ), (0 : ℤ))) sources).1 = some i ∧
    kdNearestIdx sources (sources.getD i ((0 : ℤ), (0 : ℤ))) = some i ∧
    (bruteRaster sources S).2 (sources.getD i ((0 : ℤ), (0 : ℤ))) =
      (255 / (sources.length : ℚ)) * (i : ℚ) ∧
    (kdRaster sources S).2 (sources.getD i ((0 : ℤ), (0 : ℤ))) =
      (255 / (sources.length : ℚ)) * (i : ℚ) := by
  have hne : sources ≠ [] := by
    intro hc
    rw [hc] at hi
    simp at hi
  obtain ⟨k, hk, hkl, hkmin, hklow⟩ :=
    bruteScan_spec (sources.getD i ((0 : ℤ), (0 : ℤ))) sources hne
  have hdisti : distAt (sources.getD i ((0 : ℤ), (0 : ℤ))) sources i = 0 :=
    (cityblock_eq_zero_iff _ _).mpr rfl
  have hdk : distAt (sources.getD i ((0 : ℤ), (0 : ℤ))) sources k = 0 :=
    Nat.le_zero.mp (hdisti ▸ hkmin i hi)
  have hkloc : sources.getD k ((0 : ℤ), (0 : ℤ)) = sources.getD i ((0 : ℤ), (0 : ℤ)) :=
    ((cityblock_eq_zero_iff _ _).mp hdk).symm
  have hki : k ≤ i := hklow i hi (by rw [hdisti, hdk])
  have hkeq : k = i := by
    rcases Nat.lt_or_ge k i with hlt | hge
    · exact absurd hkloc (hlow k hlt)
    · omega
  subst hkeq
  have hkd : kdNearestIdx sources (sources.getD k ((0 : ℤ), (0 : ℤ))) = some k := by
    rw [kd_eq_brute_nearest sources _ hne, hk]
  refine ⟨by rw [hk], hkd, ?_, ?_⟩
  · rw [bruteRaster_snd, if_pos hin]
    simp only [bruteCellValue]
    rw [hk]
  · rw [kdRaster_snd, if_pos hin]
    simp only [kdCellValue]
    rw [hkd]
    rfl

/-- C7 witness: seeds [(0,0),(0,1)], S = 2, i = 1: the cell (0,1) is labeled
1 and stores (255/2)·1. -/
theorem seed_cell_self_identity_witness :
    1 < ([((0 : ℤ), (0 : ℤ)), ((0 : ℤ), (1 : ℤ))] : List Point).length ∧
    ([((0 : ℤ), (0 : ℤ)), ((0 : ℤ), (1 : ℤ))] : List Point).getD 1 ((0 : ℤ), (0 : ℤ)) ∈
      gridCells 2 ∧
    (∀ j, j < 1 →
      ([((0 : ℤ), (0 : ℤ)), ((0 : ℤ), (1 : ℤ))] : List Point).getD j ((0 : ℤ), (0 : ℤ)) ≠
        ([((0 : ℤ), (0 : ℤ)), ((0 : ℤ), (1 : ℤ))] : List Point).getD 1 ((0 : ℤ), (0 : ℤ))) ∧
    ((bruteScan (([((0 : ℤ), (0 : ℤ)), ((0 : ℤ), (1 : ℤ))] : List Point).getD 1 ((0 : ℤ), (0 : ℤ)))
        [((0 : ℤ), (0 : ℤ)), ((0 : ℤ), (1 : ℤ))]).1 = some 1 ∧
      kdNearestIdx [((0 : ℤ), (0 : ℤ)), ((0 : ℤ), (1 : ℤ))]
        (([((0 : ℤ), (0 : ℤ)), ((0 : ℤ), (1 : ℤ))] : List Point).getD 1 ((0 : ℤ), (0 : ℤ))) =
        some 1 ∧
      (bruteRaster [((0 : ℤ), (0 : ℤ)), ((0 : ℤ), (1 : ℤ))] 2).2
          (([((0 : ℤ), (0 : ℤ)), ((0 : ℤ), (1 : ℤ))] : List Point).getD 1 ((0 : ℤ), (0 : ℤ))) =
        (255 / (([((0 : ℤ), (0 : ℤ)), ((0 : ℤ), (1 : ℤ))] : List Point).length : ℚ)) * ((1 : ℕ) : ℚ) ∧
      (kdRaster [((0 : ℤ), (0 : ℤ)), ((0 : ℤ), (1 : ℤ))] 2).2
          (([((0 : ℤ), (0 : ℤ)), ((0 : ℤ), (1 : ℤ))] : List Point).getD 1 ((0 : ℤ), (0 : ℤ))) =
        (255 / (([((0 : ℤ), (0 : ℤ)), ((0 : ℤ), (1 : ℤ))] : List Point).length : ℚ)) * ((1 : ℕ) : ℚ)) :=
  ⟨by decide, by decide, by decide,
    seed_cell_self_identity _ 2 1 (by decide) (by decide) (by decide)⟩

/-- C8: with the duplicate seed list [(2,2),(2,2)], every in-grid cell —
including (2,2) itself when the grid contains it — is labeled 0 rather than
1 by both searchers (every cell is equidistant from both seeds and the lower
index wins every tie), and both output grids store (255/2)·0 = 0 there. -/
theorem duplicate_seeds_label_zero (S : ℕ) (r c : ℕ) (hr : r < S) (hc : c < S) :
    (bruteScan ((r : ℤ), (c : ℤ)) [((2 : ℤ), (2 : ℤ)), ((2 : ℤ), (2 : ℤ))]).1 = some 0 ∧
    kdNearestIdx [((2 : ℤ), (2 : ℤ)), ((2 : ℤ), (2 : ℤ))] ((r : ℤ), (c : ℤ)) = some 0 ∧
    (bruteRaster [((2 : ℤ), (2 : ℤ)), ((2 : ℤ), (2 : ℤ))] S).2 ((r : ℤ), (c : ℤ)) = 0 ∧
    (kdRaster [((2 : ℤ), (2 : ℤ)), ((2 : ℤ), (2 : ℤ))] S).2 ((r : ℤ), (c : ℤ)) = 0 := by
  obtain ⟨k, hk, hkl, hkmin, hklow⟩ :=
    bruteScan_spec ((r : ℤ), (c : ℤ)) [((2 : ℤ), (2 : ℤ)), ((2 : ℤ), (2 : ℤ))] (by simp)
  have hlen : ([((2 : ℤ), (2 : ℤ)), ((2 : ℤ), (2 : ℤ))] : List Point).length = 2 := rfl
  have hk2 : k < 2 := by simpa using hkl
  have hd : distAt ((r : ℤ), (c : ℤ)) [((2 : ℤ), (2 : ℤ)), ((2 : ℤ), (2 : ℤ))] 0 =
      distAt ((r : ℤ), (c : ℤ)) [((2 : ℤ), (2 : ℤ)), ((2 : ℤ), (2 : ℤ))] k := by
    interval_cases k
    · rfl
    · rfl
  have hk0 : k = 0 := Nat.le_zero.mp (hklow 0 (by omega) hd)
  subst hk0
  have hkd : kdNearestIdx [((2 : ℤ), (2 : ℤ)), ((2 : ℤ), (2 : ℤ))] ((r : ℤ), (c : ℤ)) =
      some 0 := by
    rw [kd_eq_brute_nearest _ _ (by simp), hk]
  have hmem := cell_mem_gridCells hr hc
  refine ⟨by rw [hk], hkd, ?_, ?_⟩
  · rw [bruteRaster_snd, if_pos hmem]
    simp [bruteCellValue, hk]
  · rw [kdRaster_snd, if_pos hmem]
    simp [kdCellValue, hkd]

/-- C8 witness: S = 3 and the cell (2,2) coinciding with both seeds. -/
theorem duplicate_seeds_label_zero_witness :
    2 < 3 ∧ 2 < 3 ∧
    ((bruteScan ((2 : ℤ), (2 : ℤ)) [((2 : ℤ), (2 : ℤ)), ((2 : ℤ), (2 : ℤ))]).1 = some 0 ∧
      kdNearestIdx [((2 : ℤ), (2 : ℤ)), ((2 : ℤ), (2 : ℤ))] ((2 : ℤ), (2 : ℤ)) = some 0 ∧
      (bruteRaster [((2 : ℤ), (2 : ℤ)), ((2 : ℤ), (2 : ℤ))] 3).2 ((2 : ℤ), (2 : ℤ)) = 0 ∧
      (kdRaster [((2 : ℤ), (2 : ℤ)), ((2 : ℤ), (2 : ℤ))] 3).2 ((2 : ℤ), (2 : ℤ)) = 0) :=
  ⟨by decide, by decide, duplicate_seeds_label_zero 3 2 2 (by decide) (by decide)⟩

/-- C9: the rasterization loop of either branch writes only to the region
image `im2` and never modifies the seed-marker image `im`: after the full
computation `im` is still exactly the initialization — 255 at the seed
coordinates and 0 at every other cell. -/
theorem im_grid_unmodified (sources : List Point) (S : ℕ) :
    (bruteRaster sources S).1 = markGrid sources ∧
    (kdRaster sources S).1 = markGrid sources ∧
    ∀ c2 : Point, markGrid sources c2 = if c2 ∈ sources then 255 else 0 :=
  ⟨bruteRaster_fst sources S, kdRaster_fst sources S, fun _ => rfl⟩

/-- C10: with an empty seed list and the brute-force strategy, the run
completes without error — the inner scan performs zero iterations per cell —
and every cell of the output grid keeps its initial value 0. -/
theorem empty_brute_completes (S : ℕ) (r c : ℕ) (hr : r < S) (hc : c < S) :
    runVoronoi true ([] : List Point) S = Except.ok (bruteRaster [] S) ∧
    (bruteRaster ([] : List Point) S).2 ((r : ℤ), (c : ℤ)) = 0 := by
  refine ⟨rfl, ?_⟩
  rw [bruteRaster_snd, if_pos (cell_mem_gridCells hr hc)]
  simp [bruteCellValue, bruteScan, bruteLoop, markGrid]

/-- C10 witness: S = 1, cell (0,0). -/
theorem empty_brute_completes_witness :
    0 < 1 ∧ 0 < 1 ∧
    (runVoronoi true ([] : List Point) 1 = Except.ok (bruteRaster [] 1) ∧
      (bruteRaster ([] : List Point) 1).2 ((0 : ℤ), (0 : ℤ)) = 0) :=
  ⟨by decide, by decide, empty_brute_completes 1 0 0 (by decide) (by decide)⟩
